import Mathlib

/-!
Verification development for a Streamlit MCQ-quiz application
(single source file `qachatbot.py`).

Text is modelled as `List Char`.  The Python regular expressions used by
the source are small and concrete, so they are translated directly into
executable character-list functions:

* `re.split(r'(?m)^(?=\d+\.\s)', text.strip())`  → `splitBlocks ∘ pyStrip`
* `re.sub(r'^\d+\.\s*', '', line)`               → `stripNumHead`
* `re.compile(r'^([a-dA-D])[\.\)]\s+(.*)$').match` → `optLine`
* `re.search(r'answer:\s*([a-dA-D])\b', l, re.IGNORECASE)` → `answerSearch`

Whitespace is modelled over the ASCII whitespace characters (plus NEL and
NBSP); non-ASCII Unicode whitespace beyond those is out of scope.
-/

/-- Whitespace test shared by `str.strip` and the regex class `\s`
(ASCII whitespace plus U+0085 and U+00A0). -/
def isSpaceChar (c : Char) : Bool :=
  c == ' ' || c == '\t' || c == '\n' || c == '\r' || c == '\x0b' || c == '\x0c' ||
  c == '\x85' || c == '\xa0'

/-- Python `str.strip()`: drop leading and trailing whitespace. -/
def pyStrip (s : List Char) : List Char :=
  ((s.dropWhile isSpaceChar).reverse.dropWhile isSpaceChar).reverse

/-- Line-break characters recognised by Python `str.splitlines()`. -/
def isLineBreakChar (c : Char) : Bool :=
  c == '\n' || c == '\r' || c == '\x0b' || c == '\x0c' ||
  c == '\x1c' || c == '\x1d' || c == '\x1e' || c == '\x85' ||
  c == '\u2028' || c == '\u2029'

/-- Worker for `splitlinesPy`; `acc` holds the current line reversed. -/
def splitlinesGo : List Char → List Char → List (List Char)
  | [], acc => if acc = [] then [] else [acc.reverse]
  | '\r' :: '\n' :: rest, acc => acc.reverse :: splitlinesGo rest []
  | c :: rest, acc =>
      if isLineBreakChar c then acc.reverse :: splitlinesGo rest []
      else splitlinesGo rest (c :: acc)

/-- Python `str.splitlines()`: split at line breaks (treating `\r\n` as one
break), with no trailing empty line for a terminal break. -/
def splitlinesPy (s : List Char) : List (List Char) :=
  splitlinesGo s []

/-- Does the text at this position match the lookahead `\d+\.\s`
(one or more digits, a period, then a whitespace character)? -/
def numDotWs (l : List Char) : Bool :=
  let ds := l.takeWhile Char.isDigit
  !ds.isEmpty &&
    match l.drop ds.length with
    | '.' :: w :: _ => isSpaceChar w
    | _ => false

/-- Worker for `splitBlocks`; a new block starts right after a `'\n'`
at which the lookahead `numDotWs` fires (the `(?m)^` of the source regex). -/
def splitBlocksGo : List Char → List Char → List (List Char)
  | [], acc => [acc.reverse]
  | c :: rest, acc =>
      if c == '\n' && numDotWs rest then
        (c :: acc).reverse :: splitBlocksGo rest []
      else splitBlocksGo rest (c :: acc)

/-- `re.split(r'(?m)^(?=\d+\.\s)', s)`: split before each line that starts a
numbered item, keeping the delimiter line with the block it starts.  When the
text itself starts with a numbered item the first returned part is empty,
exactly as `re.split` yields a leading empty string there. -/
def splitBlocks (s : List Char) : List (List Char) :=
  if numDotWs s then [] :: splitBlocksGo s [] else splitBlocksGo s []

/-- `re.sub(r'^\d+\.\s*', '', l)`: strip a leading question number. -/
def stripNumHead (l : List Char) : List Char :=
  let ds := l.takeWhile Char.isDigit
  if !ds.isEmpty then
    match l.drop ds.length with
    | '.' :: rest => rest.dropWhile isSpaceChar
    | _ => l
  else l

/-- The option-letter class `[a-dA-D]`. -/
def isOptLetterChar (c : Char) : Bool :=
  c == 'a' || c == 'b' || c == 'c' || c == 'd' ||
  c == 'A' || c == 'B' || c == 'C' || c == 'D'

/-- `re.compile(r'^([a-dA-D])[\.\)]\s+(.*)$').match` on a line, followed by the
source's rebuild `f"<letter lowered>) <group(2).strip()>"`.  Returns the rebuilt
option string on a match. -/
def optLine (l : List Char) : Option (List Char) :=
  match l with
  | c :: d :: rest =>
      if isOptLetterChar c && (d == '.' || d == ')') &&
         (match rest with | r :: _ => isSpaceChar r | [] => false) then
        some (c.toLower :: ')' :: ' ' :: pyStrip (rest.dropWhile isSpaceChar))
      else none
  | _ => none

/-- Word character for the regex boundary `\b` (ASCII). -/
def isWordChar (c : Char) : Bool :=
  c.isAlpha || c.isDigit || c == '_'

/-- Case-insensitive match of the literal `answer:` at the head of the text,
returning the remainder on success. -/
def dropAnswerTag : List Char → Option (List Char)
  | a :: n :: s :: w :: e :: r :: colon :: rest =>
      if a.toLower == 'a' && n.toLower == 'n' && s.toLower == 's' &&
         w.toLower == 'w' && e.toLower == 'e' && r.toLower == 'r' &&
         colon == ':' then some rest else none
  | _ => none

/-- Match `answer:\s*([a-dA-D])\b` (case-insensitively) anchored at the head of
the text, returning the lowercased captured letter. -/
def answerAt (l : List Char) : Option Char :=
  match dropAnswerTag l with
  | none => none
  | some rest =>
      match rest.dropWhile isSpaceChar with
      | c :: tl =>
          if isOptLetterChar c &&
             (match tl with | [] => true | t :: _ => !isWordChar t) then
            some c.toLower
          else none
      | [] => none

/-- `re.search(r'answer:\s*([a-dA-D])\b', l, re.IGNORECASE)`: try the anchored
match at every position of the line, leftmost success first. -/
def answerSearch : List Char → Option Char
  | [] => none
  | c :: rest =>
      match answerAt (c :: rest) with
      | some a => some a
      | none => answerSearch rest

/-- The non-empty stripped lines of a block:
`[l.strip() for l in block.splitlines() if l.strip()]`. -/
def blockLines (block : List Char) : List (List Char) :=
  (splitlinesPy block).filterMap fun l =>
    let s := pyStrip l
    if s = [] then none else some s

/-- The source's answer scan: the first line of the block (question line
included) on which `answerSearch` succeeds supplies the letter; otherwise the
answer is the empty string. -/
def blockAnswer (lines : List (List Char)) : List Char :=
  match lines.findSome? answerSearch with
  | some c => [c]
  | none => []

/-- One parsed question: `{"question": ..., "options": [...], "answer": ...}`.
`answer` is `[c]` for a detected letter and `[]` for the empty string. -/
structure QuestionRecord where
  question : List Char
  options : List (List Char)
  answer : List Char
deriving DecidableEq

/-- The body of the `for block in parts` loop of `parse_mcqs`: strip the
block, skip it when empty, collect its non-empty lines, strip the question
number from the first line, match option lines among the rest, scan all lines
for the answer, and emit the record only when both the question text and the
option list are non-empty (options truncated to the first four). -/
def processBlock (b : List Char) : Option QuestionRecord :=
  let block := pyStrip b
  if block = [] then none
  else
    let lines := blockLines block
    if lines = [] then none
    else
      let q := stripNumHead (lines.headD [])
      let optionsRaw := lines.tail.filterMap optLine
      let ans := blockAnswer lines
      if q ≠ [] ∧ optionsRaw ≠ [] then
        some ⟨q, optionsRaw.take 4, ans⟩
      else none

/-- `parse_mcqs(text)`: split the stripped text into blocks and process each,
keeping the emitted records in order. -/
def parse_mcqs (text : List Char) : List QuestionRecord :=
  (splitBlocks (pyStrip text)).filterMap processBlock

/-! ## Rendering of one question (`render_mcq_interactive`) -/

/-- `opt.split(')')[0]`: the text before the first `')'` (the whole string
when there is none). -/
def splitHeadParen (s : List Char) : List Char :=
  s.takeWhile fun c => c != ')'

/-- Python `str.lower()` (ASCII). -/
def pyLower (s : List Char) : List Char :=
  s.map Char.toLower

/-- `opt.split(')')[0].strip().lower()`: the letter the source extracts from
a rendered option string. -/
def letterOf (opt : List Char) : List Char :=
  pyLower (pyStrip (splitHeadParen opt))

/-- The three CSS tile classes of the source. -/
inductive Css
  | correct
  | wrong
  | neutral
deriving DecidableEq

/-- Python truthiness of the `chosen` session value (absent or empty string
is falsy). -/
def truthy : Option (List Char) → Bool
  | none => false
  | some s => !s.isEmpty

/-- The tile-colouring decision of `render_mcq_interactive` for one option,
translated branch for branch from the source (`chosen` is the stored selection,
`correctLetter` the record's answer string, `letter` the option's letter). -/
def optionCss (revealed : Bool) (chosen : Option (List Char))
    (correctLetter letter : List Char) : Css :=
  if revealed then
    if letter = correctLetter then Css.correct
    else if truthy chosen = true ∧ some letter = chosen ∧ chosen ≠ some correctLetter then
      Css.wrong
    else Css.neutral
  else
    if chosen = some letter then
      if letter = correctLetter then Css.correct else Css.wrong
    else Css.neutral

/-- The `st.info(f"Answer: **<correct_letter>)**")` text shown once revealed. -/
def revealAnswerText (correctLetter : List Char) : List Char :=
  "Answer: **".data ++ correctLetter ++ ")**".data

/-! ## Per-question interaction state machine -/

/-- Per-question interaction state: the `sel_<qid>` and `rev_<qid>` session
entries (`chosen = none` when `sel_<qid>` is absent). -/
structure QState where
  chosen : Option (List Char)
  revealed : Bool
deriving DecidableEq

/-- The click events `render_mcq_interactive` can emit. -/
inductive QEvent
  | choose (letter : List Char)
  | changeSelection
  | reveal
deriving DecidableEq

/-- One user click on a question, as enabled by the branches of
`render_mcq_interactive`: in the initial branch (nothing chosen, not revealed)
the option buttons and "Show answer" exist; in the tiles branch
"Change selection" and "Show answer" exist only while not revealed.
`none` means the corresponding button is not rendered. -/
def stepQ (options : List (List Char)) (s : QState) (e : QEvent) : Option QState :=
  if truthy s.chosen = false ∧ s.revealed = false then
    match e with
    | QEvent.choose l =>
        if (options.map letterOf).contains l then some { s with chosen := some l }
        else none
    | QEvent.reveal => some { s with revealed := true }
    | QEvent.changeSelection => none
  else
    match e with
    | QEvent.choose _ => none
    | QEvent.changeSelection =>
        if s.revealed = false then some { chosen := none, revealed := s.revealed }
        else none
    | QEvent.reveal =>
        if s.revealed = false then some { s with revealed := true }
        else none

/-- A click on a button that is not rendered leaves the state unchanged. -/
def stepQTotal (options : List (List Char)) (s : QState) (e : QEvent) : QState :=
  match stepQ options s e with
  | some s2 => s2
  | none => s

/-- A sequence of user clicks on one question. -/
def runEvents (options : List (List Char)) (s : QState) (es : List QEvent) : QState :=
  es.foldl (stepQTotal options) s

/-! ## History store -/

/-- One saved run, as appended by `add_to_history`. -/
structure HistoryItem where
  id : Nat
  ts : List Char
  topic : List Char
  num : Nat
  response : List Char
deriving DecidableEq

/-- `new_id = (items[-1]["id"] + 1) if items else 1`. -/
def nextId (items : List HistoryItem) : Nat :=
  match items.getLast? with
  | some it => it.id + 1
  | none => 1

/-- `add_to_history`: append a record carrying the next id. -/
def add_to_history (items : List HistoryItem) (ts topic : List Char)
    (num : Nat) (response : List Char) : List HistoryItem :=
  items ++ [⟨nextId items, ts, topic, num, response⟩]

/-- The Delete button handler:
`[x for x in st.session_state.history if x["id"] != h["id"]]`. -/
def deleteById (items : List HistoryItem) (i : Nat) : List HistoryItem :=
  items.filter fun x => x.id != i

/-- The ids of the stored records, in storage order. -/
def idsOf (items : List HistoryItem) : List Nat :=
  items.map fun x => x.id

/-- The history-mutating user actions. -/
inductive HOp
  | append (ts topic : List Char) (num : Nat) (response : List Char)
  | delete (i : Nat)
  | clearAll

/-- Apply one history action (`clearAll` is the sidebar
"Clear All History" handler, which sets the list to empty). -/
def applyOp (items : List HistoryItem) : HOp → List HistoryItem
  | HOp.append ts topic num response => add_to_history items ts topic num response
  | HOp.delete i => deleteById items i
  | HOp.clearAll => []

/-- Run a sequence of history actions from the empty store. -/
def runOps (ops : List HOp) : List HistoryItem :=
  ops.foldl applyOp []

/-! ## Session state and the generate / load handlers -/

/-- A value stored under a dynamic widget key (`sel_<i>` holds a letter
string, `rev_<i>` holds a boolean). -/
inductive SessionVal
  | str (s : List Char)
  | boolv (b : Bool)
deriving DecidableEq

/-- Lookup in the dynamic part of `st.session_state`. -/
def lookupKV (k : List Char) : List (List Char × SessionVal) → Option SessionVal
  | [] => none
  | kv :: rest => if kv.1 = k then some kv.2 else lookupKV k rest

/-- Python `str.startswith` on character lists (pattern first). -/
def startsWith : List Char → List Char → Bool
  | [], _ => true
  | _ :: _, [] => false
  | p :: ps, c :: cs => if p = c then startsWith ps cs else false

/-- The key fragment `"sel_"`. -/
def selTag : List Char := "sel_".data

/-- The key fragment `"rev_"`. -/
def revTag : List Char := "rev_".data

/-- `clear_selection_state`: pop every session key starting with `sel_` or
`rev_` (its `_max_q` argument is unused by the source and is omitted here). -/
def clear_selection_state (widget : List (List Char × SessionVal)) :
    List (List Char × SessionVal) :=
  widget.filter fun kv => !(startsWith selTag kv.1 || startsWith revTag kv.1)

/-- The session key `f"sel_<qid>"`. -/
def selKey (qid : Nat) : List Char := selTag ++ (Nat.repr qid).data

/-- The session key `f"rev_<qid>"`. -/
def revKey (qid : Nat) : List Char := revTag ++ (Nat.repr qid).data

/-- The mutable session: the named `st.session_state` slots plus the dynamic
widget-keyed entries. -/
structure Session where
  history : List HistoryItem
  messages : List (List Char)
  current_blocks : List QuestionRecord
  current_raw : List Char
  current_topic : List Char
  current_num : Nat
  widget : List (List Char × SessionVal)
deriving DecidableEq

/-- Result of the generate handler: the session afterwards, whether the model
chain was invoked, and the transient message shown (if any). -/
structure GenResult where
  sess : Session
  invokedModel : Bool
  message : Option (List Char)
deriving DecidableEq

/-- The error text shown when the API key is missing. -/
def errNoKey : List Char :=
  "Service not ready: missing API key (developer setup).".data

/-- The warning text shown for a blank topic. -/
def warnNoTopic : List Char := "Enter a topic.".data

/-- The `HumanMessage` content appended on a successful generation. -/
def humanGenMsg (topic : List Char) (num : Nat) : List Char :=
  "Topic: ".data ++ topic ++ ", Questions: ".data ++ (Nat.repr num).data

/-- The `if run:` branch of the Generate tab: refuse when the model client is
missing, warn when the stripped topic is empty, otherwise invoke the chain
(its raw text is the `modelResponse` argument, the model client being
external), parse it, replace the current set, wipe the selection state,
append the chat messages and the history record. -/
def generateAction (ss : Session) (llmReady : Bool) (topic : List Char)
    (numQuestions : Nat) (ts modelResponse : List Char) : GenResult :=
  if llmReady = false then ⟨ss, false, some errNoKey⟩
  else if pyStrip topic = [] then ⟨ss, false, some warnNoTopic⟩
  else
    let raw := modelResponse
    let blocks := parse_mcqs raw
    let ss2 : Session :=
      { history := add_to_history ss.history ts topic numQuestions raw
        messages := ss.messages ++ [humanGenMsg topic numQuestions, raw]
        current_blocks := blocks
        current_raw := raw
        current_topic := topic
        current_num := numQuestions
        widget := clear_selection_state ss.widget }
    ⟨ss2, true, none⟩

/-- The "Load this set" handler of the History tab: re-parse the stored raw
response into the current set and wipe the selection state. -/
def loadAction (ss : Session) (h : HistoryItem) : Session :=
  { ss with
    current_blocks := parse_mcqs h.response
    current_raw := h.response
    current_topic := h.topic
    current_num := h.num
    widget := clear_selection_state ss.widget }

/-! ## Helper lemmas about the parser -/

/-- Membership in the parse result is membership of some block's record. -/
theorem mem_parse_mcqs {t : List Char} {r : QuestionRecord} :
    r ∈ parse_mcqs t ↔
      ∃ b, b ∈ splitBlocks (pyStrip t) ∧ processBlock b = some r := by
  simp [parse_mcqs, List.mem_filterMap]

/-- Unfolding an emitted record into the source's per-block computations. -/
theorem processBlock_fields {b : List Char} {r : QuestionRecord}
    (hr : processBlock b = some r) :
    r.question = stripNumHead ((blockLines (pyStrip b)).headD []) ∧
    r.options = (((blockLines (pyStrip b)).tail).filterMap optLine).take 4 ∧
    r.answer = blockAnswer (blockLines (pyStrip b)) ∧
    r.question ≠ [] ∧ ((blockLines (pyStrip b)).tail).filterMap optLine ≠ [] := by
  simp only [processBlock] at hr
  split_ifs at hr with h1 h2 h3
  cases hr
  exact ⟨rfl, rfl, rfl, h3.1, h3.2⟩

/-- A lowercased option letter is one of the four letters. -/
theorem optLetter_toLower {c : Char} (h : isOptLetterChar c = true) :
    c.toLower = 'a' ∨ c.toLower = 'b' ∨ c.toLower = 'c' ∨ c.toLower = 'd' := by
  have h2 : c = 'a' ∨ c = 'b' ∨ c = 'c' ∨ c = 'd' ∨
      c = 'A' ∨ c = 'B' ∨ c = 'C' ∨ c = 'D' := by
    simpa [isOptLetterChar, Bool.or_eq_true, beq_iff_eq, or_assoc] using h
  rcases h2 with h | h | h | h | h | h | h | h <;> subst h <;> decide

/-- Every string produced by `optLine` has the shape `<letter>) <text>`. -/
theorem optLine_shape {l opt : List Char} (h : optLine l = some opt) :
    ∃ c rest, opt = c :: ')' :: ' ' :: rest ∧
      (c = 'a' ∨ c = 'b' ∨ c = 'c' ∨ c = 'd') := by
  match l with
  | [] => exact Option.noConfusion h
  | [c] => exact Option.noConfusion h
  | c :: d :: rest =>
    simp only [optLine] at h
    split_ifs at h with hc
    cases h
    refine ⟨c.toLower, _, rfl, ?_⟩
    have h1 : isOptLetterChar c = true := by
      simp only [Bool.and_eq_true] at hc
      exact hc.1.1
    exact optLetter_toLower h1

/-- `letterOf` recovers the single letter of a well-shaped option string. -/
theorem letterOf_shaped {c : Char} (rest : List Char)
    (h : c = 'a' ∨ c = 'b' ∨ c = 'c' ∨ c = 'd') :
    letterOf (c :: ')' :: ' ' :: rest) = [c] := by
  rcases h with h | h | h | h <;> subst h <;>
    · simp only [letterOf, splitHeadParen]
      rw [List.takeWhile_cons_of_pos (by decide),
        List.takeWhile_cons_of_neg (by decide)]
      decide

/-- Every option of an emitted record has the shape `<letter>) <text>`. -/
theorem mem_options_shape {b : List Char} {r : QuestionRecord}
    (hr : processBlock b = some r) {opt : List Char} (hopt : opt ∈ r.options) :
    ∃ c rest, opt = c :: ')' :: ' ' :: rest ∧
      (c = 'a' ∨ c = 'b' ∨ c = 'c' ∨ c = 'd') := by
  obtain ⟨-, hopts, -, -, -⟩ := processBlock_fields hr
  rw [hopts] at hopt
  have h1 : opt ∈ ((blockLines (pyStrip b)).tail).filterMap optLine :=
    (List.take_sublist 4 _).mem hopt
  obtain ⟨l, -, hl⟩ := List.mem_filterMap.mp h1
  exact optLine_shape hl

/-! ## Claim C1 -/

/-- A raw text whose only block carries two options with the same letter. -/
def txtDupLetters : List Char := "1. Q?\na) x\na) y".data

/-- Claim C1 as stated is false: on the raw text `"1. Q?\na) x\na) y"` the
parser returns a record whose two options are both lettered `a`, so the
letters are not pairwise distinct. -/
theorem c1_distinct_letters_counterexample :
    ¬ (∀ r ∈ parse_mcqs txtDupLetters,
        r.question ≠ [] ∧ 1 ≤ r.options.length ∧ r.options.length ≤ 4 ∧
        (r.options.map letterOf).Nodup) := by decide

/-- Claim C1 (amended): every record returned by `parse_mcqs` has non-empty
question text and between 1 and 4 options; the letters need not be pairwise
distinct, because the parser keeps the first four matched lines without
deduplicating by letter. -/
theorem c1_records_wellformed (t : List Char) (r : QuestionRecord)
    (hr : r ∈ parse_mcqs t) :
    r.question ≠ [] ∧ 1 ≤ r.options.length ∧ r.options.length ≤ 4 := by
  obtain ⟨b, -, hb⟩ := mem_parse_mcqs.mp hr
  obtain ⟨-, hopts, -, hq, hne⟩ := processBlock_fields hb
  refine ⟨hq, ?_, ?_⟩
  · rw [hopts, List.length_take]
    have h1 : 0 < (((blockLines (pyStrip b)).tail).filterMap optLine).length :=
      List.length_pos.mpr hne
    exact Nat.le_min.mpr ⟨by omega, h1⟩
  · rw [hopts, List.length_take]
    exact Nat.min_le_left 4 _

/-- Witness for the amended C1 at the concrete input `txtDupLetters`. -/
theorem c1_records_wellformed_witness :
    (⟨"Q?".data, ["a) x".data, "a) y".data], []⟩ : QuestionRecord).question ≠ [] ∧
    1 ≤ (⟨"Q?".data, ["a) x".data, "a) y".data], []⟩ : QuestionRecord).options.length ∧
    (⟨"Q?".data, ["a) x".data, "a) y".data], []⟩ : QuestionRecord).options.length ≤ 4 :=
  c1_records_wellformed txtDupLetters _ (by decide)

/-! ## Claim C2 -/

/-- A raw text whose block has six option lines lettered a,b,c,d,a,b. -/
def txtSixOptions : List Char :=
  "1. Q?\na) 1\nb) 2\nc) 3\nd) 4\na) 5\nb) 6\nAnswer: a".data

/-- The record `parse_mcqs` emits for `txtSixOptions`. -/
def recSixOptions : QuestionRecord :=
  ⟨"Q?".data, ["a) 1".data, "b) 2".data, "c) 3".data, "d) 4".data], ['a']⟩

/-- Claim C2: within each block, the options of the emitted record are exactly
the first 4 lines matching the option pattern, in encounter order, with no
deduplication by letter value (the options are literally
`take 4` of the matched-and-rebuilt lines of the block). -/
theorem c2_first_four_options (t b : List Char) (r : QuestionRecord)
    (hb : b ∈ splitBlocks (pyStrip t)) (hr : processBlock b = some r) :
    r ∈ parse_mcqs t ∧
    r.options = (((blockLines (pyStrip b)).tail).filterMap optLine).take 4 :=
  ⟨mem_parse_mcqs.mpr ⟨b, hb, hr⟩, (processBlock_fields hr).2.1⟩

/-- Witness for C2 at the malformed block lettered a,b,c,d,a,b: exactly the
first 4 matched lines are kept, in order. -/
theorem c2_first_four_options_witness :
    recSixOptions ∈ parse_mcqs txtSixOptions ∧
    recSixOptions.options =
      (((blockLines (pyStrip txtSixOptions)).tail).filterMap optLine).take 4 :=
  c2_first_four_options txtSixOptions txtSixOptions recSixOptions
    (by decide) (by decide)

/-! ## Claim C3 -/

/-- A raw text testing the answer scan: the second line holds a non-letter
candidate before the real one, and a later line holds another answer. -/
def txtFirstAnswer : List Char :=
  "1. Q?\nAnswer: x Answer: b\na) 1\nb) 2\nAnswer: a".data

/-- The record `parse_mcqs` emits for `txtFirstAnswer`. -/
def recFirstAnswer : QuestionRecord :=
  ⟨"Q?".data, ["a) 1".data, "b) 2".data], ['b']⟩

/-- Claim C3: the emitted record's answer letter arises from scanning all
non-empty lines of the block in order (question line included) with
`answerSearch`, the translation of the case-insensitive whole-word regex
`answer:\s*([a-d])\b`; the first line with a match wins, and absence of a
match leaves the answer empty. -/
theorem c3_answer_first_match (t b : List Char) (r : QuestionRecord)
    (hb : b ∈ splitBlocks (pyStrip t)) (hr : processBlock b = some r) :
    r ∈ parse_mcqs t ∧
    r.answer = blockAnswer (blockLines (pyStrip b)) ∧
    ((blockLines (pyStrip b)).findSome? answerSearch = none → r.answer = []) ∧
    (∀ c, (blockLines (pyStrip b)).findSome? answerSearch = some c →
      r.answer = [c]) := by
  obtain ⟨-, -, hans, -, -⟩ := processBlock_fields hr
  refine ⟨mem_parse_mcqs.mpr ⟨b, hb, hr⟩, hans, ?_, ?_⟩
  · intro h; rw [hans, blockAnswer, h]
  · intro c h; rw [hans, blockAnswer, h]

/-- Witness for C3 at `txtFirstAnswer`: the first whole-word match (`b` on the
second line) wins, and the later `Answer: a` line is ignored. -/
theorem c3_answer_first_match_witness :
    recFirstAnswer ∈ parse_mcqs txtFirstAnswer ∧ recFirstAnswer.answer = ['b'] := by
  have h := c3_answer_first_match txtFirstAnswer txtFirstAnswer recFirstAnswer
    (by decide) (by decide)
  exact ⟨h.1, h.2.2.2 'b' (by decide)⟩

/-! ## Claim C10 -/

/-- A raw text whose initial lines precede the first numbered line and whose
later preamble lines match the option pattern. -/
def txtPreamble : List Char :=
  "Intro line\na) foo\nb) bar\n1. Real?\nc) x\nd) y\nAnswer: c".data

/-- Claim C10: text before the first `<digits>.` line forms an ordinary block;
the parser emits a record whose question text is the preamble's first line
unchanged, followed by the record of the numbered block. -/
theorem c10_preamble_is_block :
    parse_mcqs txtPreamble =
      [⟨"Intro line".data, ["a) foo".data, "b) bar".data], []⟩,
       ⟨"Real?".data, ["c) x".data, "d) y".data], ['c']⟩] := by decide

/-! ## Helper lemmas about the history store -/

/-- The last element of a one-element extension. -/
theorem getLast?_append_single {α : Type} (l : List α) (a : α) :
    (l ++ [a]).getLast? = some a := by
  induction l with
  | nil => rfl
  | cons x xs ih =>
    cases xs with
    | nil => rfl
    | cons y ys => simpa [List.getLast?_cons_cons] using ih

/-- In a strictly increasing id list, every id is below the next assigned id. -/
theorem lt_nextId : ∀ (items : List HistoryItem),
    List.Pairwise (· < ·) (idsOf items) → ∀ x ∈ idsOf items, x < nextId items
  | [] => by intro _ x hx; simp [idsOf] at hx
  | [it] => by
      intro _ x hx
      simp [idsOf] at hx
      subst hx
      simp [nextId]
  | it :: it2 :: rest => by
      intro hp x hx
      have hnext : nextId (it :: it2 :: rest) = nextId (it2 :: rest) := by
        simp [nextId, List.getLast?_cons_cons]
      have hp2 : List.Pairwise (· < ·) (idsOf (it2 :: rest)) := by
        have := hp
        simp only [idsOf, List.map_cons, List.pairwise_cons] at this
        simpa [idsOf] using this.2
      rw [hnext]
      have hx2 : x ∈ it.id :: idsOf (it2 :: rest) := by
        simpa only [idsOf, List.map_cons] using hx
      rcases List.mem_cons.mp hx2 with hx1 | hx1
      · rw [hx1]
        have hlt : it.id < it2.id := by
          have := hp
          simp only [idsOf, List.map_cons, List.pairwise_cons] at this
          exact this.1 it2.id (by simp)
        have hlt2 : it2.id < nextId (it2 :: rest) :=
          lt_nextId (it2 :: rest) hp2 it2.id (by simp [idsOf])
        omega
      · exact lt_nextId (it2 :: rest) hp2 x hx1

/-- Every single history action preserves strict monotonicity of the ids. -/
theorem pairwise_applyOp (items : List HistoryItem) (op : HOp)
    (hp : List.Pairwise (· < ·) (idsOf items)) :
    List.Pairwise (· < ·) (idsOf (applyOp items op)) := by
  cases op with
  | append ts topic num response =>
    have hids : idsOf (add_to_history items ts topic num response) =
        idsOf items ++ [nextId items] := by
      simp [idsOf, add_to_history]
    show List.Pairwise (· < ·) (idsOf (add_to_history items ts topic num response))
    rw [hids, List.pairwise_append]
    refine ⟨hp, by simp, ?_⟩
    intro x hx y hy
    simp only [List.mem_singleton] at hy
    subst hy
    exact lt_nextId items hp x hx
  | delete i =>
    have hsub : List.Sublist (idsOf (deleteById items i)) (idsOf items) :=
      (List.filter_sublist items).map _
    exact hp.sublist hsub
  | clearAll => simp [applyOp, idsOf]

/-! ## Claim C4 -/

/-- A generic append action used by the concrete traces. -/
def opA : HOp := HOp.append "t".data "tp".data 1 "r".data

/-- Claim C4 as stated is false: after the trace append, append, delete 2,
the id 2 — once assigned and since deleted — is assigned again by the next
append (because the next id is computed from the last surviving record). -/
theorem c4_id_reuse_counterexample :
    2 ∈ idsOf (runOps [opA, opA]) ∧
    2 ∉ idsOf (runOps [opA, opA, HOp.delete 2]) ∧
    2 ∈ idsOf (runOps [opA, opA, HOp.delete 2, opA]) := by decide

/-- Claim C4 (amended): for every sequence of append, deleteById and clearAll
operations, the ids of the records currently in the history are strictly
increasing in storage order — hence pairwise distinct, and an id present is
never assigned to another present record.  An id freed by deletion (or by
clearAll) can however be reassigned once no record with an id at least as
large remains. -/
theorem c4_ids_strictly_increasing (ops : List HOp) :
    List.Pairwise (· < ·) (idsOf (runOps ops)) := by
  suffices h : ∀ start : List HistoryItem, List.Pairwise (· < ·) (idsOf start) →
      List.Pairwise (· < ·) (idsOf (List.foldl applyOp start ops)) by
    exact h [] (by simp [idsOf])
  induction ops with
  | nil => intro s hs; exact hs
  | cons op rest ih =>
    intro s hs
    rw [List.foldl_cons]
    exact ih _ (pairwise_applyOp s op hs)

/-! ## Claim C5 -/

/-- Claim C5: appending to a history whose last record has id `n` appends a
record with id `n + 1` (id 1 on an empty history); `deleteById` keeps exactly
the records with a different id, as a sublist (ids and relative order of the
survivors unchanged); and the next append after such a delete assigns
`lastRemainingId + 1`. -/
theorem c5_append_and_delete (items : List HistoryItem) (it : HistoryItem)
    (hlast : items.getLast? = some it) (i : Nat)
    (ts topic response : List Char) (num : Nat) :
    (add_to_history items ts topic num response).getLast? =
      some ⟨it.id + 1, ts, topic, num, response⟩ ∧
    add_to_history [] ts topic num response = [⟨1, ts, topic, num, response⟩] ∧
    (deleteById items i).Sublist items ∧
    (∀ x ∈ items, (x ∈ deleteById items i ↔ x.id ≠ i)) ∧
    (∀ x ∈ deleteById items i, x ∈ items) ∧
    (∀ it2, (deleteById items i).getLast? = some it2 →
      (add_to_history (deleteById items i) ts topic num response).getLast? =
        some ⟨it2.id + 1, ts, topic, num, response⟩) := by
  have hadd : ∀ (l : List HistoryItem) (it3 : HistoryItem), l.getLast? = some it3 →
      (add_to_history l ts topic num response).getLast? =
        some ⟨it3.id + 1, ts, topic, num, response⟩ := by
    intro l it3 h3
    rw [add_to_history, getLast?_append_single]
    simp [nextId, h3]
  refine ⟨hadd items it hlast, ?_, ?_, ?_, ?_, fun it2 h2 => hadd _ it2 h2⟩
  · simp [add_to_history, nextId]
  · exact List.filter_sublist items
  · intro x hx
    simp [deleteById, List.mem_filter, hx, bne_iff_ne]
  · intro x hx
    exact List.mem_of_mem_filter hx

/-- A concrete history record for the witnesses. -/
def histItem (i : Nat) : HistoryItem := ⟨i, "t".data, "tp".data, 1, "r".data⟩

/-- The three-record history of the spec's history test. -/
def hist3 : List HistoryItem := [histItem 1, histItem 2, histItem 3]

/-- Witness for C5: on the 3-record history, appending assigns id 4; after
deleting id 2 the deleted record is gone and the next append assigns
`lastRemainingId + 1 = 4`. -/
theorem c5_append_and_delete_witness :
    (add_to_history hist3 "t".data "tp".data 1 "r".data).getLast? =
      some ⟨4, "t".data, "tp".data, 1, "r".data⟩ ∧
    (histItem 2 ∈ deleteById hist3 2 ↔ (histItem 2).id ≠ 2) ∧
    (add_to_history (deleteById hist3 2) "t".data "tp".data 1 "r".data).getLast? =
      some ⟨4, "t".data, "tp".data, 1, "r".data⟩ := by
  have h := c5_append_and_delete hist3 (histItem 3) (by decide) 2
    "t".data "tp".data "r".data 1
  exact ⟨h.1, h.2.2.2.1 (histItem 2) (by decide),
    h.2.2.2.2.2 (histItem 3) (by decide)⟩

/-! ## Claim C6 -/

/-- A raw text whose block carries no answer line. -/
def txtNoAnswer : List Char := "1. Q?\na) x\nb) y".data

/-- Claim C6 as stated is false: for `txtNoAnswer` the parsed record's answer
is empty, yet when the user had chosen option `b` before revealing, the
revealed rendering colours option `b` "wrong" — not "neutral". -/
theorem c6_empty_answer_counterexample :
    parse_mcqs txtNoAnswer = [⟨"Q?".data, ["a) x".data, "b) y".data], []⟩] ∧
    optionCss true (some ['b']) [] (letterOf "b) y".data) = Css.wrong ∧
    ¬ (∀ opt ∈ ["a) x".data, "b) y".data],
        optionCss true (some ['b']) ([] : List Char) (letterOf opt) ≠ Css.wrong) := by
  decide

/-- Claim C6 (amended): when a parsed question's answer is the empty string
and the question is revealed, no option is ever coloured "correct" and the
answer-letter text shows an empty letter; an option is coloured "wrong"
exactly when it is the one the user had chosen (the empty answer compares
unequal to every option letter), and every other option is "neutral". -/
theorem c6_empty_answer_reveal (t : List Char) (r : QuestionRecord)
    (hr : r ∈ parse_mcqs t) (hans : r.answer = [])
    (chosen : Option (List Char)) (opt : List Char) (hopt : opt ∈ r.options) :
    optionCss true chosen r.answer (letterOf opt) ≠ Css.correct ∧
    (optionCss true chosen r.answer (letterOf opt) = Css.wrong ↔
      chosen = some (letterOf opt)) ∧
    (chosen ≠ some (letterOf opt) →
      optionCss true chosen r.answer (letterOf opt) = Css.neutral) ∧
    revealAnswerText r.answer = "Answer: **)**".data := by
  obtain ⟨b, -, hb⟩ := mem_parse_mcqs.mp hr
  obtain ⟨c, rest, hshape, hc⟩ := mem_options_shape hb hopt
  have hlet : letterOf opt = [c] := by rw [hshape]; exact letterOf_shaped rest hc
  rw [hans, hlet]
  by_cases hch : chosen = some [c]
  · subst hch
    refine ⟨?_, ?_, ?_, by decide⟩
    · simp [optionCss, truthy]
    · simp [optionCss, truthy]
    · intro hne; exact absurd rfl hne
  · have hch2 : ¬ (some [c] = chosen) := fun h => hch h.symm
    refine ⟨?_, ?_, fun _ => ?_, by decide⟩
    · simp [optionCss, hch2]
    · simp [optionCss, hch2, hch]
    · simp [optionCss, hch2]

/-- Witness for the amended C6 at `txtNoAnswer` with a choice of `a`: option
`b` renders "neutral" and never "correct". -/
theorem c6_empty_answer_reveal_witness :
    optionCss true (some ['a']) ([] : List Char) (letterOf "b) y".data) ≠ Css.correct ∧
    optionCss true (some ['a']) ([] : List Char) (letterOf "b) y".data) = Css.neutral := by
  have h := c6_empty_answer_reveal txtNoAnswer
    ⟨"Q?".data, ["a) x".data, "b) y".data], []⟩
    (by decide) rfl (some ['a']) "b) y".data (by decide)
  exact ⟨h.1, h.2.2.1 (by decide)⟩

/-! ## Claim C7 -/

/-- Once revealed, no button at all is offered for the question. -/
theorem stepQ_none_of_revealed {options : List (List Char)} {s : QState}
    (h : s.revealed = true) (e : QEvent) : stepQ options s e = none := by
  cases e <;> simp [stepQ, h]

/-- Once revealed, any further click leaves the state unchanged. -/
theorem stepQTotal_of_revealed {options : List (List Char)} {s : QState}
    (h : s.revealed = true) (e : QEvent) : stepQTotal options s e = s := by
  simp [stepQTotal, stepQ_none_of_revealed h]

/-- Once revealed, any sequence of clicks leaves the state unchanged. -/
theorem runEvents_of_revealed (options : List (List Char)) (s : QState)
    (es : List QEvent) (h : s.revealed = true) : runEvents options s es = s := by
  induction es with
  | nil => rfl
  | cons e rest ih =>
    rw [runEvents, List.foldl_cons, stepQTotal_of_revealed h]
    exact ih

/-- The change-selection transition is enabled only while not revealed, and it
clears the chosen letter. -/
theorem stepQ_changeSelection {options : List (List Char)} {s s2 : QState}
    (h : stepQ options s QEvent.changeSelection = some s2) :
    s.revealed = false ∧ s2.chosen = none := by
  simp only [stepQ] at h
  split_ifs at h with h1 h2
  cases h
  exact ⟨h2, rfl⟩

/-- Claim C7: within a session, once a question's revealed flag is true no
subsequent click clears it (no further transition is even enabled, so any
click sequence leaves the state fixed), and the change-selection transition
that clears the chosen letter is only enabled while revealed is false. -/
theorem c7_reveal_irreversible (options : List (List Char)) (s : QState)
    (es : List QEvent) (e : QEvent) (s2 : QState) :
    (s.revealed = true → (runEvents options s es).revealed = true) ∧
    (stepQ options s QEvent.changeSelection = some s2 →
      s.revealed = false ∧ s2.chosen = none) ∧
    (stepQ options s e = some s2 → s.revealed = true → s2.revealed = true) := by
  refine ⟨fun h => ?_, fun h => stepQ_changeSelection h, fun h hrev => ?_⟩
  · rw [runEvents_of_revealed options s es h]; exact h
  · rw [stepQ_none_of_revealed hrev] at h; exact Option.noConfusion h

/-- Witness for C7: a revealed state survives a click sequence untouched, and
a concrete enabled change-selection step starts from an unrevealed state and
clears the choice. -/
theorem c7_reveal_irreversible_witness :
    (runEvents [] ⟨some ['b'], true⟩ [QEvent.changeSelection, QEvent.reveal]).revealed = true ∧
    ((⟨some ['b'], false⟩ : QState).revealed = false ∧
      (⟨none, false⟩ : QState).chosen = none) :=
  ⟨(c7_reveal_irreversible [] ⟨some ['b'], true⟩
      [QEvent.changeSelection, QEvent.reveal] QEvent.reveal ⟨none, false⟩).1 rfl,
   (c7_reveal_irreversible [] ⟨some ['b'], false⟩ [] QEvent.reveal
      ⟨none, false⟩).2.1 (by decide)⟩

/-! ## Claims C8 and C9: session-level handlers -/

/-- `startsWith` holds on any extension of the pattern. -/
theorem startsWith_append (p t : List Char) : startsWith p (p ++ t) = true := by
  induction p with
  | nil => rfl
  | cons c cs ih => simp [startsWith, ih]

/-- Lookup misses every key that the filter predicate bans. -/
theorem lookupKV_filter (p : List Char × SessionVal → Bool) (k : List Char)
    (w : List (List Char × SessionVal))
    (h : ∀ kv, p kv = true → kv.1 ≠ k) :
    lookupKV k (w.filter p) = none := by
  induction w with
  | nil => rfl
  | cons kv rest ih =>
    rw [List.filter_cons]
    by_cases hpa : p kv = true
    · rw [if_pos hpa]
      simp only [lookupKV]
      rw [if_neg (h kv hpa)]
      exact ih
    · rw [if_neg hpa]
      exact ih

/-- After `clear_selection_state` no `sel_`/`rev_`-tagged key is present. -/
theorem clear_selection_state_lookup (w : List (List Char × SessionVal))
    (k : List Char)
    (hk : startsWith selTag k = true ∨ startsWith revTag k = true) :
    lookupKV k (clear_selection_state w) = none := by
  apply lookupKV_filter
  intro kv hp hke
  rw [hke] at hp
  rcases hk with hk | hk <;> simp [hk] at hp

/-- Every `sel_<i>` key carries the `sel_` tag. -/
theorem selKey_tagged (i : Nat) : startsWith selTag (selKey i) = true :=
  startsWith_append selTag (Nat.repr i).data

/-- Every `rev_<i>` key carries the `rev_` tag. -/
theorem revKey_tagged (i : Nat) : startsWith revTag (revKey i) = true :=
  startsWith_append revTag (Nat.repr i).data

/-- Claim C8: replacing the current question set — by a successful generation
or by loading a history entry — leaves no selection or reveal state
addressable for ANY question index, including indices beyond the new set's
length (the wipe removes every `sel_`/`rev_` key wholesale). -/
theorem c8_selection_state_wiped (ss : Session) (topic : List Char)
    (numQuestions : Nat) (ts modelResponse : List Char) (h : HistoryItem)
    (i : Nat) (htopic : pyStrip topic ≠ []) :
    lookupKV (selKey i)
      (generateAction ss true topic numQuestions ts modelResponse).sess.widget = none ∧
    lookupKV (revKey i)
      (generateAction ss true topic numQuestions ts modelResponse).sess.widget = none ∧
    lookupKV (selKey i) (loadAction ss h).widget = none ∧
    lookupKV (revKey i) (loadAction ss h).widget = none := by
  have hgen : (generateAction ss true topic numQuestions ts modelResponse).sess.widget =
      clear_selection_state ss.widget := by
    simp [generateAction, htopic]
  have hload : (loadAction ss h).widget = clear_selection_state ss.widget := rfl
  rw [hgen, hload]
  exact ⟨clear_selection_state_lookup _ _ (Or.inl (selKey_tagged i)),
    clear_selection_state_lookup _ _ (Or.inr (revKey_tagged i)),
    clear_selection_state_lookup _ _ (Or.inl (selKey_tagged i)),
    clear_selection_state_lookup _ _ (Or.inr (revKey_tagged i))⟩

/-- A session whose widget map still holds selection state for indices of a
previous 5-question set. -/
def exWidget : List (List Char × SessionVal) :=
  [(selKey 2, SessionVal.str ['a']), (revKey 4, SessionVal.boolv true),
   (selKey 0, SessionVal.str ['b'])]

/-- A concrete session used by the C8 and C9 witnesses. -/
def exSession : Session := ⟨[], [], [], [], [], 0, exWidget⟩

/-- A stored run whose raw response parses to a 2-question set. -/
def exHistoryItem : HistoryItem :=
  ⟨1, "t".data, "tp".data, 2, "1. Q?\na) x\nb) y\n2. R?\na) u\nb) v".data⟩

/-- Witness for C8 at index 2, beyond the 2-question set loaded or generated:
no residual selection or reveal state is addressable. -/
theorem c8_selection_state_wiped_witness :
    lookupKV (selKey 2)
      (generateAction exSession true "tp".data 2 "t".data
        exHistoryItem.response).sess.widget = none ∧
    lookupKV (revKey 2)
      (generateAction exSession true "tp".data 2 "t".data
        exHistoryItem.response).sess.widget = none ∧
    lookupKV (selKey 2) (loadAction exSession exHistoryItem).widget = none ∧
    lookupKV (revKey 2) (loadAction exSession exHistoryItem).widget = none :=
  c8_selection_state_wiped exSession "tp".data 2 "t".data
    exHistoryItem.response exHistoryItem 2 (by decide)

/-- Claim C9: when generation is triggered with the model client missing, or
with an empty/whitespace-only topic, a user-visible message is produced, the
model client is not invoked, and the session (history, current set,
interaction state) is unchanged; the handler is a total function, so no
exception escapes. -/
theorem c9_validation_no_mutation (ss : Session) (llmReady : Bool)
    (topic : List Char) (numQuestions : Nat) (ts modelResponse : List Char)
    (h : llmReady = false ∨ pyStrip topic = []) :
    (generateAction ss llmReady topic numQuestions ts modelResponse).sess = ss ∧
    (generateAction ss llmReady topic numQuestions ts modelResponse).invokedModel = false ∧
    (generateAction ss llmReady topic numQuestions ts modelResponse).message.isSome = true := by
  rcases h with h | h
  · subst h; exact ⟨rfl, rfl, rfl⟩
  · cases llmReady
    · exact ⟨rfl, rfl, rfl⟩
    · simp [generateAction, h]

/-- Witness for C9 at a whitespace-only topic. -/
theorem c9_validation_no_mutation_witness :
    (generateAction exSession true "   ".data 2 "t".data "x".data).sess = exSession ∧
    (generateAction exSession true "   ".data 2 "t".data "x".data).invokedModel = false ∧
    (generateAction exSession true "   ".data 2 "t".data "x".data).message.isSome = true :=
  c9_validation_no_mutation exSession true "   ".data 2 "t".data "x".data
    (Or.inr (by decide))
